import Mathlib

/-!
Shallow embedding of `migrate_github_repos.py` (GitHub repository migration
script) and proofs about it.

The script has three parts that the development models:

* `GitHubRepoScanner.parse_github_url` — a pair of anchored regular
  expressions extracting `(owner, repo)` from SSH-style and HTTPS-style
  GitHub URLs.  The regexes are embedded by their exact matching semantics
  (see the comments at `matchRepoTail`).
* `GitHubRepoScanner.scan_directory` / `is_git_repository` — an `os.walk`
  traversal over a directory tree, pruning hidden directories and never
  descending into a directory recognised as a git repository.  The
  filesystem is modelled as a tree of named directories and files, and the
  `git remote get-url` subprocess as an oracle from paths to optional URL
  strings.
* `GitHubRepoMigrator.migrate_repositories` / `fork_repository` — the
  partitioning of the fork listing against the local exclusion set, the
  confirmation gate, the dry-run switch and the per-item fork replay.
  Side effects (network calls, console messages, the interactive prompt)
  are reified as an explicit event trace; the success of a real `gh repo
  fork` invocation is an oracle from repository names to booleans.
-/

namespace MigrateRepos

/-! ### URL parsing: `GitHubRepoScanner.parse_github_url`

The source matches, in order, the two anchored patterns

  ssh:   `git@github\.com:([^/]+)/(.+?)(?:\.git)?$`
  https: `https://github\.com/([^/]+)/(.+?)(?:\.git)?$`

with `re.match` (anchored at the start; the trailing `$` anchors the end).
Their matching semantics, which the definitions below implement directly:

* the literal host part must come first (`re.match` anchors at position 0);
* `([^/]+)` is greedy over non-`'/'` characters and must be followed by the
  literal `'/'`, so the owner group is exactly the (nonempty) run of
  characters up to the first `'/'` after the literal;
* `(.+?)` is lazy and `.` does not match `'\n'`; `(?:\.git)?` is tried
  greedily before the empty alternative; Python's `$` matches at the end of
  the string or just before a `'\n'` that is the last character.  Hence for
  the tail `t` after the owner's `'/'`, the group is `take k t` for the
  least `k ≥ 1` such that `drop k t` is one of `".git\n"`, `".git"`,
  `"\n"`, `""` — in that order of increasing `k` — provided `take k t`
  contains no `'\n'` (if the least candidate contains a newline, every
  longer candidate does too, so the pattern fails).
-/

/-- Result of `parse_github_url`: the dict
`{'owner': ..., 'repo': ..., 'full_name': f"{owner}/{repo}"}`. -/
structure RepoInfo where
  owner : String
  repo : String
  full_name : String
deriving DecidableEq, Repr

/-- Match a literal character sequence at the start of `s`, returning the
remainder (the anchored literal part of each regex). -/
def dropLit : List Char → List Char → Option (List Char)
  | [], s => some s
  | _ :: _, [] => none
  | p :: ps, c :: cs => if p = c then dropLit ps cs else none

/-- Whether `lit` occurs at the start of `s` (specification-side companion
of `dropLit`). -/
def startsWithChars : List Char → List Char → Bool
  | [], _ => true
  | _ :: _, [] => false
  | p :: ps, c :: cs => p == c && startsWithChars ps cs

/-- Split at the first `'/'`: `takeToSlash s = some (o, t)` iff
`s = o ++ '/' :: t` with `'/' ∉ o`.  Returns `none` when `s` has no
`'/'`. -/
def takeToSlash : List Char → Option (List Char × List Char)
  | [] => none
  | c :: cs =>
    if c = '/' then some ([], cs)
    else
      match takeToSlash cs with
      | some (o, t) => some (c :: o, t)
      | none => none

/-- The group `([^/]+)` followed by the literal `'/'`: the owner is the run
of characters before the first `'/'`, and must be nonempty. -/
def splitOwner (s : List Char) : Option (List Char × List Char) :=
  (takeToSlash s).bind fun ot => if ot.1 = [] then none else some ot

/-- Strip a leading reversed `".git"` (i.e. `'t' :: 'i' :: 'g' :: '.'`)
from a reversed tail. -/
def stripDotGitRev : List Char → Option (List Char)
  | 't' :: 'i' :: 'g' :: '.' :: rest => some rest
  | _ => none

/-- The lazy group `(.+?)` before `(?:\.git)?$`, computed on the reversed
tail.  The four end-of-match candidates `".git\n"`, `".git"`, `"\n"`, `""`
are tried by increasing group length; the group itself must be nonempty. -/
def repoGroupRev (s : List Char) : Option (List Char) :=
  match s with
  | [] => none
  | c :: cs =>
    if c = '\n' then
      -- last character is a newline: `$` may match just before it
      match stripDotGitRev cs with
      | some (d :: ds) => some (d :: ds)   -- suffix ".git\n", nonempty group
      | _ =>
        match cs with
        | d :: ds => some (d :: ds)        -- suffix "\n", nonempty group
        | [] => none                       -- tail is just "\n": `.+?` has nothing to consume
    else
      match stripDotGitRev (c :: cs) with
      | some (d :: ds) => some (d :: ds)   -- suffix ".git", nonempty group
      | _ => some (c :: cs)                -- no suffix: the group is the whole tail

/-- The repo-name group extracted from the tail after the owner's `'/'`,
per `(.+?)(?:\.git)?$` with `.` not matching `'\n'`: if the least
candidate group contains a newline, every longer one does too and the
match fails. -/
def matchRepoTail (t : List Char) : Option (List Char) :=
  match repoGroupRev t.reverse with
  | none => none
  | some grev =>
    let g := grev.reverse
    if '\n' ∈ g then none else some g

/-- Full-match semantics of one of the two patterns: literal host part,
owner group, `'/'`, repo group. -/
def matchHostPattern (lit s : List Char) : Option (List Char × List Char) :=
  (dropLit lit s).bind fun rest =>
    (splitOwner rest).bind fun ot =>
      (matchRepoTail ot.2).map fun g => (ot.1, g)

/-- Literal part of the SSH pattern, the characters of
`"git@github.com:"` (the `\.` in the pattern is a literal dot). -/
def sshLit : List Char :=
  ['g', 'i', 't', '@', 'g', 'i', 't', 'h', 'u', 'b', '.', 'c', 'o', 'm', ':']

/-- Literal part of the HTTPS pattern, the characters of
`"https://github.com/"`. -/
def httpsLit : List Char :=
  ['h', 't', 't', 'p', 's', ':', '/', '/', 'g', 'i', 't', 'h', 'u', 'b', '.',
   'c', 'o', 'm', '/']

/-- Embedding of `GitHubRepoScanner.parse_github_url`: try the SSH pattern,
then the HTTPS pattern (the `for pattern in [ssh_pattern, https_pattern]`
loop), returning the owner/repo/full-name dict of the first match, and
`None` when neither matches (or the URL is empty). -/
def parse_github_url (url : String) : Option RepoInfo :=
  if url = "" then none
  else
    ((matchHostPattern sshLit url.data).orElse
        fun _ => matchHostPattern httpsLit url.data).map
      fun og => ⟨⟨og.1⟩, ⟨og.2⟩, ⟨og.1 ++ '/' :: og.2⟩⟩

/-! ### Local scan: `GitHubRepoScanner.is_git_repository` / `scan_directory`

The filesystem is a tree of named entries (directories with children, or
plain files).  `os.walk(base)` visits the base directory and then, top
down, every subdirectory that survives the in-place pruning of `dirs`:
the source keeps only subdirectories whose name does not start with `'.'`
(or is exactly `".git"`), and clears `dirs` entirely once the current
directory is recognised as a git repository, so the walk never descends
into a repository root.  The `git remote get-url origin` subprocess is an
oracle from paths (lists of directory names below the base) to optional
URL strings. -/

mutual
/-- A filesystem entry: a directory with its named children, or a file. -/
inductive FSEntry where
  | dir (name : String) (children : FSList)
  | file (name : String)
/-- A list of filesystem entries (mutual with `FSEntry` so that all
definitions below are by structural recursion). -/
inductive FSList where
  | nil
  | cons (e : FSEntry) (rest : FSList)
end

/-- Name of an entry. -/
def FSEntry.name : FSEntry → String
  | .dir n _ => n
  | .file n => n

/-- View an `FSList` as an ordinary list of entries. -/
def FSList.toList : FSList → List FSEntry
  | .nil => []
  | .cons e rest => e :: rest.toList

/-- Embedding of `GitHubRepoScanner.is_git_repository`: the source tests
`(path / '.git').exists()`, which is true when the directory holds ANY
entry named `".git"` — a directory or a plain file alike. -/
def is_git_repository : FSList → Bool
  | .nil => false
  | .cons e rest => e.name == ".git" || is_git_repository rest

/-- Python's `d.startswith('.')` on an entry name. -/
def nameHidden (n : String) : Bool :=
  match n.data with
  | [] => false
  | c :: _ => c == '.'

/-- The pruning of `os.walk`'s `dirs` list at line 95 of the source:
keep a subdirectory iff its name does not start with `'.'` or is exactly
`".git"`; files are never walked into. -/
def walkDescends : FSEntry → Bool
  | .file _ => false
  | .dir n _ => !nameHidden n || n == ".git"

/-- A record of `self.local_repos`: `{'path': ..., 'owner': ...,
'repo': ..., 'url': ...}`, with the path as the list of directory names
below the scan base. -/
structure LocalRecord where
  path : List String
  owner : String
  repo : String
  url : String
deriving DecidableEq, Repr

/-- Lines 100–110 of the source at one repository root: read the remote
URL (the oracle), parse it, and on success emit the keyed record. -/
def repoRecordAt (oracle : List String → Option String) (path : List String) :
    List (String × LocalRecord) :=
  match oracle path with
  | none => []
  | some url =>
    match parse_github_url url with
    | none => []
    | some info => [(info.full_name, ⟨path, info.owner, info.repo, url⟩)]

mutual
/-- One step of the `os.walk` loop at a pruned subdirectory entry: when
the walk descends into it, yield the directory itself, record it when it
is a git repository (and then do NOT descend further — `dirs.clear()`),
otherwise walk its surviving subdirectories in order.  Returns the
visited paths in visit order and the emitted `(full_name, record)` pairs
in emission order. -/
def visitEntry (oracle : List String → Option String) (path : List String) :
    FSEntry → List (List String) × List (String × LocalRecord)
  | .file _ => ([], [])
  | .dir n cs =>
    if walkDescends (.dir n cs) then
      let p := path ++ [n]
      if is_git_repository cs then
        (p :: [], repoRecordAt oracle p)
      else
        let sub := visitEntries oracle p cs
        (p :: sub.1, sub.2)
    else ([], [])
/-- Walk the subdirectory list of a non-repository directory, in order. -/
def visitEntries (oracle : List String → Option String) (path : List String) :
    FSList → List (List String) × List (String × LocalRecord)
  | .nil => ([], [])
  | .cons e rest =>
    let t := visitEntry oracle path e
    let r := visitEntries oracle path rest
    (t.1 ++ r.1, t.2 ++ r.2)
end

/-- Embedding of `GitHubRepoScanner.scan_directory`: walk from the base
directory (whose children are given; the base itself is visited first,
with path `[]`), returning the visited paths and the `(full_name,
record)` pairs in discovery order.  The source stores the records in a
dict keyed by `full_name` (later finds overwrite earlier ones); the key
set of that dict is exactly the set of first components here. -/
def scan_directory (oracle : List String → Option String) (base : FSList) :
    List (List String) × List (String × LocalRecord) :=
  if is_git_repository base then
    ([] :: [], repoRecordAt oracle [])
  else
    let sub := visitEntries oracle [] base
    ([] :: sub.1, sub.2)

/-! ### Migration: `GitHubRepoMigrator.migrate_repositories` / `fork_repository`

`forked_repos` entries carry `nameWithOwner` and optional parent
`nameWithOwner` (`repo.get('parent', {}).get('nameWithOwner')`).  The
interactive answer to `Continue? [y/N]:` is the `confirm` argument; the
success of a real `gh repo fork` call is the `netSuccess` oracle.  All
side effects are reified in an `Event` trace. -/

/-- A remote fork record as consumed by the migrator: the fields of the
`gh repo list --json` output that the source reads. -/
structure ForkRecord where
  nameWithOwner : String
  parent : Option String
deriving DecidableEq, Repr

/-- Observable actions of the migration pass. -/
inductive Event where
  /-- a real `gh repo fork <repoFullName>` network invocation -/
  | forkCall (repoFullName : String)
  /-- the `[DRY RUN] Would fork:` report (no network action) -/
  | dryRunWouldFork (repoFullName : String)
  /-- the `Successfully forked` report after a real call -/
  | forkSuccess (repoFullName : String)
  /-- the `Failed to fork` report after a real call -/
  | forkFailure (repoFullName : String)
  /-- the `Skipping ...: No parent found` diagnostic -/
  | noParent (forkName : String)
  /-- the `Migration cancelled.` message -/
  | cancelledMsg
deriving DecidableEq, Repr

/-- Embedding of Python's `str.lower()` as used on the one-character
confirmation answer (ASCII case folding, character by character). -/
def pyLower (s : String) : String :=
  ⟨s.data.map Char.toLower⟩

/-- Embedding of `GitHubRepoMigrator.fork_repository`: in dry-run mode
report a synthetic success without any network action; otherwise invoke
`gh repo fork` (the `netSuccess` oracle) and report its outcome. -/
def fork_repository (netSuccess : String → Bool) (repo_full_name : String)
    (dry_run : Bool) : List Event × Bool :=
  if dry_run then ([.dryRunWouldFork repo_full_name], true)
  else if netSuccess repo_full_name then
    ([.forkCall repo_full_name, .forkSuccess repo_full_name], true)
  else
    ([.forkCall repo_full_name, .forkFailure repo_full_name], false)

/-- The loop at lines 198–206 of the source (named `computeMigrationSet`
in the specification): in listing order, a fork whose `nameWithOwner` is
in the local key set goes to `repos_skipped` (as a name), every other
fork goes to `repos_to_migrate` (as a record). -/
def computeMigrationSet (forks : List ForkRecord) (localNames : List String) :
    List ForkRecord × List String :=
  match forks with
  | [] => ([], [])
  | repo :: rest =>
    let r := computeMigrationSet rest localNames
    if localNames.contains repo.nameWithOwner then (r.1, repo.nameWithOwner :: r.2)
    else (repo :: r.1, r.2)

/-- The replay loop at lines 238–247 of the source: for each candidate in
order, fork from its parent when present (counting success/failure),
otherwise emit the no-parent diagnostic.  Returns
`(successful, failed, events)`. -/
def migrateLoop (netSuccess : String → Bool) (dry_run : Bool) :
    List ForkRecord → Nat × Nat × List Event
  | [] => (0, 0, [])
  | repo :: rest =>
    let r := migrateLoop netSuccess dry_run rest
    match repo.parent with
    | some p =>
      let fr := fork_repository netSuccess p dry_run
      if fr.2 then (r.1 + 1, r.2.1, fr.1 ++ r.2.2)
      else (r.1, r.2.1 + 1, fr.1 ++ r.2.2)
    | none => (r.1, r.2.1, Event.noParent repo.nameWithOwner :: r.2.2)

/-- Overall outcome of `migrate_repositories`: the early returns at lines
190 (empty listing), 221 (nothing to migrate) and 229 (cancellation), or
completion with the final `successful`/`failed` tally. -/
inductive MigrateOutcome where
  | noForks
  | nothingToMigrate
  | cancelled
  | completed (successful failed : Nat)
deriving DecidableEq, Repr

/-- Embedding of `GitHubRepoMigrator.migrate_repositories`: partition the
fork listing against the local key set, stop early on an empty listing or
an empty migration set, ask for confirmation unless in dry-run mode
(any answer whose lower-casing is not `"y"` cancels), then replay the
create-fork action over the candidates in listing order. -/
def migrate_repositories (netSuccess : String → Bool) (confirm : String)
    (localNames : List String) (forkedRepos : List ForkRecord)
    (dry_run : Bool) : MigrateOutcome × List Event :=
  if forkedRepos = [] then (.noForks, [])
  else
    let ms := computeMigrationSet forkedRepos localNames
    if ms.1 = [] then (.nothingToMigrate, [])
    else if dry_run = false ∧ pyLower confirm ≠ "y" then (.cancelled, [.cancelledMsg])
    else
      let r := migrateLoop netSuccess dry_run ms.1
      (.completed r.1 r.2.1, r.2.2)

/-- The targets of real create-fork network invocations in a trace. -/
def forkCallTargets (evs : List Event) : List String :=
  evs.filterMap fun e =>
    match e with
    | .forkCall r => some r
    | _ => none

/-- The targets of dry-run synthetic-success reports in a trace. -/
def dryRunTargets (evs : List Event) : List String :=
  evs.filterMap fun e =>
    match e with
    | .dryRunWouldFork r => some r
    | _ => none

/-- The fork names given a no-parent diagnostic in a trace. -/
def noParentNames (evs : List Event) : List String :=
  evs.filterMap fun e =>
    match e with
    | .noParent n => some n
    | _ => none

/-! ### Helper lemmas about the URL parser -/

theorem dropLit_self_append (l s : List Char) : dropLit l (l ++ s) = some s := by
  induction l with
  | nil => rfl
  | cons c cs ih => simp [dropLit, ih]

theorem dropLit_of_not_startsWith (l s : List Char)
    (h : startsWithChars l s = false) : dropLit l s = none := by
  induction l generalizing s with
  | nil => simp [startsWithChars] at h
  | cons p ps ih =>
    cases s with
    | nil => rfl
    | cons c cs =>
      simp only [startsWithChars, Bool.and_eq_false_iff] at h
      by_cases hpc : p = c
      · subst hpc
        simp [startsWithChars] at h
        simp [dropLit, ih cs h]
      · simp [dropLit, hpc]

theorem takeToSlash_append (o t : List Char) (h : '/' ∉ o) :
    takeToSlash (o ++ '/' :: t) = some (o, t) := by
  induction o with
  | nil => simp [takeToSlash]
  | cons c cs ih =>
    have hc : c ≠ '/' := fun hc => h (hc ▸ List.mem_cons_self c cs)
    have hcs : '/' ∉ cs := fun hm => h (List.mem_cons_of_mem c hm)
    simp [takeToSlash, hc, ih hcs]

theorem takeToSlash_no_slash (s o t : List Char) (h : takeToSlash s = some (o, t)) :
    '/' ∉ o := by
  induction s generalizing o t with
  | nil => cases h
  | cons c cs ih =>
    unfold takeToSlash at h
    split at h
    · cases h
      simp
    · split at h
      · rename_i hc _ o' t' hts
        cases h
        intro hm
        rcases List.mem_cons.mp hm with h1 | h1
        · exact hc h1.symm
        · exact ih o' t hts h1
      · cases h

theorem splitOwner_eq_take (s o t : List Char) (h : splitOwner s = some (o, t)) :
    takeToSlash s = some (o, t) := by
  unfold splitOwner at h
  obtain ⟨ot, hts, hot⟩ := Option.bind_eq_some.mp h
  split at hot
  · cases hot
  · cases hot
    exact hts

theorem matchRepoTail_strip (r : List Char) (h1 : r ≠ []) (h2 : '\n' ∉ r) :
    matchRepoTail (r ++ ['.', 'g', 'i', 't']) = some r := by
  obtain ⟨c, cs, hr⟩ : ∃ c cs, r.reverse = c :: cs := by
    cases hrev : r.reverse with
    | nil => exact absurd (List.reverse_eq_nil_iff.mp hrev) h1
    | cons c cs => exact ⟨c, cs, rfl⟩
  unfold matchRepoTail
  rw [List.reverse_append, hr]
  show (match repoGroupRev ('t' :: 'i' :: 'g' :: '.' :: c :: cs) with
    | none => none
    | some grev => if '\n' ∈ grev.reverse then none else some grev.reverse) = some r
  simp only [repoGroupRev, stripDotGitRev]
  rw [if_neg (by decide : ¬ ('t' : Char) = '\n')]
  show (if '\n' ∈ (c :: cs).reverse then none else some (c :: cs).reverse) = some r
  rw [← hr, List.reverse_reverse, if_neg h2]

theorem matchHostPattern_strip (lit o r : List Char) (ho : o ≠ []) (hos : '/' ∉ o)
    (hr : r ≠ []) (hrn : '\n' ∉ r) :
    matchHostPattern lit (lit ++ (o ++ '/' :: (r ++ ['.', 'g', 'i', 't']))) =
      some (o, r) := by
  simp only [matchHostPattern, splitOwner, dropLit_self_append, Option.some_bind,
    takeToSlash_append _ _ hos, matchRepoTail_strip r hr hrn]
  rw [if_neg ho]
  simp
  exact matchRepoTail_strip r hr hrn

theorem matchHostPattern_owner (lit s o g : List Char)
    (h : matchHostPattern lit s = some (o, g)) : '/' ∉ o := by
  unfold matchHostPattern at h
  obtain ⟨rest, _, h⟩ := Option.bind_eq_some.mp h
  obtain ⟨ot, hso, h⟩ := Option.bind_eq_some.mp h
  obtain ⟨g', _, h⟩ := Option.map_eq_some'.mp h
  have ho : ot.1 = o := congrArg Prod.fst h
  subst ho
  exact takeToSlash_no_slash rest ot.1 ot.2
    (splitOwner_eq_take rest ot.1 ot.2 (by simpa using hso))

theorem mk_string_ne_empty (l : List Char) (h : l ≠ []) : (⟨l⟩ : String) ≠ "" := by
  intro he
  exact h (congrArg String.data he)

theorem sshLit_eq_data : sshLit = "git@github.com:".data := by decide

theorem httpsLit_eq_data : httpsLit = "https://github.com/".data := by decide

theorem matchHostPattern_none_of_no_lit (lit s : List Char)
    (h : dropLit lit s = none) : matchHostPattern lit s = none := by
  simp [matchHostPattern, h]

theorem parse_none_of_no_host (url : String)
    (h1 : startsWithChars sshLit url.data = false)
    (h2 : startsWithChars httpsLit url.data = false) :
    parse_github_url url = none := by
  by_cases he : url = ""
  · simp [parse_github_url, he]
  · rw [parse_github_url, if_neg he,
      matchHostPattern_none_of_no_lit _ _ (dropLit_of_not_startsWith _ _ h1),
      matchHostPattern_none_of_no_lit _ _ (dropLit_of_not_startsWith _ _ h2)]
    rfl

theorem parse_strip_ssh (o r : List Char) (ho : o ≠ []) (hos : '/' ∉ o)
    (hr : r ≠ []) (hrn : '\n' ∉ r) :
    parse_github_url ⟨sshLit ++ (o ++ '/' :: (r ++ ['.', 'g', 'i', 't']))⟩ =
      some ⟨⟨o⟩, ⟨r⟩, ⟨o ++ '/' :: r⟩⟩ := by
  have hne : (⟨sshLit ++ (o ++ '/' :: (r ++ ['.', 'g', 'i', 't']))⟩ : String) ≠ "" :=
    mk_string_ne_empty _ (by simp [sshLit])
  have h1 : matchHostPattern sshLit (sshLit ++ (o ++ '/' :: (r ++ ['.', 'g', 'i', 't']))) =
      some (o, r) := matchHostPattern_strip sshLit o r ho hos hr hrn
  rw [parse_github_url, if_neg hne, h1]
  rfl

theorem parse_strip_https (o r : List Char) (ho : o ≠ []) (hos : '/' ∉ o)
    (hr : r ≠ []) (hrn : '\n' ∉ r) :
    parse_github_url ⟨httpsLit ++ (o ++ '/' :: (r ++ ['.', 'g', 'i', 't']))⟩ =
      some ⟨⟨o⟩, ⟨r⟩, ⟨o ++ '/' :: r⟩⟩ := by
  have hne : (⟨httpsLit ++ (o ++ '/' :: (r ++ ['.', 'g', 'i', 't']))⟩ : String) ≠ "" :=
    mk_string_ne_empty _ (by simp [httpsLit])
  have h0 : matchHostPattern sshLit (httpsLit ++ (o ++ '/' :: (r ++ ['.', 'g', 'i', 't']))) =
      none := by
    apply matchHostPattern_none_of_no_lit
    simp [sshLit, httpsLit, dropLit]
  have h1 : matchHostPattern httpsLit (httpsLit ++ (o ++ '/' :: (r ++ ['.', 'g', 'i', 't']))) =
      some (o, r) := matchHostPattern_strip httpsLit o r ho hos hr hrn
  rw [parse_github_url, if_neg hne, h0, h1]
  rfl

theorem parse_some_owner (url : String) (info : RepoInfo)
    (h : parse_github_url url = some info) : '/' ∉ info.owner.data := by
  by_cases he : url = ""
  · rw [he] at h
    simp [parse_github_url] at h
  · rw [parse_github_url, if_neg he] at h
    obtain ⟨og, hm, hinfo⟩ := Option.map_eq_some'.mp h
    have howner : info.owner.data = og.1 := by rw [← hinfo]
    rw [howner]
    cases hm1 : matchHostPattern sshLit url.data with
    | some og' =>
      rw [hm1] at hm
      cases hm
      exact matchHostPattern_owner sshLit url.data og.1 og.2 (by simpa using hm1)
    | none =>
      rw [hm1] at hm
      have hm2 : matchHostPattern httpsLit url.data = some og := hm
      exact matchHostPattern_owner httpsLit url.data og.1 og.2 (by simpa using hm2)

/-! ### Helper lemmas about the migration pass -/

@[simp]
theorem forkCallTargets_nil : forkCallTargets [] = [] := rfl

@[simp]
theorem forkCallTargets_append (a b : List Event) :
    forkCallTargets (a ++ b) = forkCallTargets a ++ forkCallTargets b :=
  List.filterMap_append a b _

@[simp]
theorem forkCallTargets_forkCall (r : String) (evs : List Event) :
    forkCallTargets (.forkCall r :: evs) = r :: forkCallTargets evs := rfl

@[simp]
theorem forkCallTargets_dryRun (r : String) (evs : List Event) :
    forkCallTargets (.dryRunWouldFork r :: evs) = forkCallTargets evs := rfl

@[simp]
theorem forkCallTargets_success (r : String) (evs : List Event) :
    forkCallTargets (.forkSuccess r :: evs) = forkCallTargets evs := rfl

@[simp]
theorem forkCallTargets_failure (r : String) (evs : List Event) :
    forkCallTargets (.forkFailure r :: evs) = forkCallTargets evs := rfl

@[simp]
theorem forkCallTargets_noParent (n : String) (evs : List Event) :
    forkCallTargets (.noParent n :: evs) = forkCallTargets evs := rfl

@[simp]
theorem forkCallTargets_cancelled (evs : List Event) :
    forkCallTargets (.cancelledMsg :: evs) = forkCallTargets evs := rfl

@[simp]
theorem dryRunTargets_nil : dryRunTargets [] = [] := rfl

@[simp]
theorem dryRunTargets_append (a b : List Event) :
    dryRunTargets (a ++ b) = dryRunTargets a ++ dryRunTargets b :=
  List.filterMap_append a b _

@[simp]
theorem dryRunTargets_forkCall (r : String) (evs : List Event) :
    dryRunTargets (.forkCall r :: evs) = dryRunTargets evs := rfl

@[simp]
theorem dryRunTargets_dryRun (r : String) (evs : List Event) :
    dryRunTargets (.dryRunWouldFork r :: evs) = r :: dryRunTargets evs := rfl

@[simp]
theorem dryRunTargets_success (r : String) (evs : List Event) :
    dryRunTargets (.forkSuccess r :: evs) = dryRunTargets evs := rfl

@[simp]
theorem dryRunTargets_failure (r : String) (evs : List Event) :
    dryRunTargets (.forkFailure r :: evs) = dryRunTargets evs := rfl

@[simp]
theorem dryRunTargets_noParent (n : String) (evs : List Event) :
    dryRunTargets (.noParent n :: evs) = dryRunTargets evs := rfl

@[simp]
theorem dryRunTargets_cancelled (evs : List Event) :
    dryRunTargets (.cancelledMsg :: evs) = dryRunTargets evs := rfl

@[simp]
theorem noParentNames_nil : noParentNames [] = [] := rfl

@[simp]
theorem noParentNames_append (a b : List Event) :
    noParentNames (a ++ b) = noParentNames a ++ noParentNames b :=
  List.filterMap_append a b _

@[simp]
theorem noParentNames_forkCall (r : String) (evs : List Event) :
    noParentNames (.forkCall r :: evs) = noParentNames evs := rfl

@[simp]
theorem noParentNames_dryRun (r : String) (evs : List Event) :
    noParentNames (.dryRunWouldFork r :: evs) = noParentNames evs := rfl

@[simp]
theorem noParentNames_success (r : String) (evs : List Event) :
    noParentNames (.forkSuccess r :: evs) = noParentNames evs := rfl

@[simp]
theorem noParentNames_failure (r : String) (evs : List Event) :
    noParentNames (.forkFailure r :: evs) = noParentNames evs := rfl

@[simp]
theorem noParentNames_noParent (n : String) (evs : List Event) :
    noParentNames (.noParent n :: evs) = n :: noParentNames evs := rfl

@[simp]
theorem noParentNames_cancelled (evs : List Event) :
    noParentNames (.cancelledMsg :: evs) = noParentNames evs := rfl

theorem migrateLoop_forkCallTargets_false (ns : String → Bool) (l : List ForkRecord) :
    forkCallTargets (migrateLoop ns false l).2.2 = l.filterMap ForkRecord.parent := by
  induction l with
  | nil => rfl
  | cons repo rest ih =>
    cases hp : repo.parent with
    | none => simpa [migrateLoop, hp, List.filterMap_cons] using ih
    | some p =>
      simp only [migrateLoop, hp, fork_repository, List.filterMap_cons]
      cases hns : ns p <;> simp [hns, ih]

theorem migrateLoop_forkCallTargets_true (ns : String → Bool) (l : List ForkRecord) :
    forkCallTargets (migrateLoop ns true l).2.2 = [] := by
  induction l with
  | nil => rfl
  | cons repo rest ih =>
    cases hp : repo.parent with
    | none => simpa [migrateLoop, hp] using ih
    | some p =>
      simp only [migrateLoop, hp, fork_repository, if_pos]
      simpa using ih

theorem migrateLoop_dryRunTargets_true (ns : String → Bool) (l : List ForkRecord) :
    dryRunTargets (migrateLoop ns true l).2.2 = l.filterMap ForkRecord.parent := by
  induction l with
  | nil => rfl
  | cons repo rest ih =>
    cases hp : repo.parent with
    | none => simpa [migrateLoop, hp, List.filterMap_cons] using ih
    | some p =>
      simp only [migrateLoop, hp, fork_repository, if_pos, List.filterMap_cons]
      simpa using ih

theorem migrateLoop_true_counts (ns : String → Bool) (l : List ForkRecord) :
    (migrateLoop ns true l).1 = (l.countP fun r => r.parent.isSome) ∧
    (migrateLoop ns true l).2.1 = 0 := by
  induction l with
  | nil => simp [migrateLoop]
  | cons repo rest ih =>
    cases hp : repo.parent with
    | none => simpa [migrateLoop, hp, List.countP_cons] using ih
    | some p =>
      simp only [migrateLoop, hp, fork_repository, if_pos]
      simp [List.countP_cons, hp, ih.1, ih.2]

theorem migrateLoop_counts_sum (ns : String → Bool) (dr : Bool) (l : List ForkRecord) :
    (migrateLoop ns dr l).1 + (migrateLoop ns dr l).2.1 =
      l.countP fun r => r.parent.isSome := by
  induction l with
  | nil => simp [migrateLoop]
  | cons repo rest ih =>
    cases hp : repo.parent with
    | none => simpa [migrateLoop, hp, List.countP_cons] using ih
    | some p =>
      simp only [migrateLoop, hp, fork_repository]
      cases dr with
      | true => simp [List.countP_cons, hp]; omega
      | false =>
        cases hns : ns p <;> simp [hns, List.countP_cons, hp] <;> omega

theorem migrateLoop_noParentNames (ns : String → Bool) (dr : Bool) (l : List ForkRecord) :
    noParentNames (migrateLoop ns dr l).2.2 =
      (l.filter fun r => r.parent = none).map ForkRecord.nameWithOwner := by
  induction l with
  | nil => rfl
  | cons repo rest ih =>
    cases hp : repo.parent with
    | none =>
      simp only [migrateLoop, hp, List.filter_cons]
      simpa [noParentNames] using ih
    | some p =>
      simp only [migrateLoop, hp, fork_repository, List.filter_cons]
      cases dr with
      | true => simpa [noParentNames_append, noParentNames] using ih
      | false =>
        cases hns : ns p <;>
          simpa [hns, noParentNames_append, noParentNames] using ih

theorem migrate_run (ns : String → Bool) (confirm : String) (localNames : List String)
    (forks : List ForkRecord) (dr : Bool) (hne : forks ≠ [])
    (htm : (computeMigrationSet forks localNames).1 ≠ [])
    (hgate : dr = true ∨ pyLower confirm = "y") :
    migrate_repositories ns confirm localNames forks dr =
      (.completed (migrateLoop ns dr (computeMigrationSet forks localNames).1).1
         (migrateLoop ns dr (computeMigrationSet forks localNames).1).2.1,
       (migrateLoop ns dr (computeMigrationSet forks localNames).1).2.2) := by
  have hg : ¬(dr = false ∧ pyLower confirm ≠ "y") := by
    rcases hgate with h | h
    · rintro ⟨h1, _⟩
      rw [h] at h1
      cases h1
    · rintro ⟨_, h2⟩
      exact h2 h
  simp only [migrate_repositories, if_neg hne, if_neg htm, if_neg hg]

theorem migrate_noForks (ns : String → Bool) (confirm : String)
    (localNames : List String) (dr : Bool) :
    migrate_repositories ns confirm localNames [] dr = (.noForks, []) := by
  simp [migrate_repositories]

theorem migrate_nothingToMigrate (ns : String → Bool) (confirm : String)
    (localNames : List String) (forks : List ForkRecord) (dr : Bool)
    (hne : forks ≠ []) (htm : (computeMigrationSet forks localNames).1 = []) :
    migrate_repositories ns confirm localNames forks dr = (.nothingToMigrate, []) := by
  simp only [migrate_repositories, if_neg hne, htm]
  simp

theorem charOfNat_toNat (n : Nat) (h : n < 55296) : (Char.ofNat n).toNat = n := by
  have hv : Nat.isValidChar n := Or.inl h
  simp [Char.ofNat, hv, Char.ofNatAux, Char.toNat, UInt32.toNat]

theorem char_toLower_eq_y (c : Char) (h : Char.toLower c = 'y') :
    c = 'y' ∨ c = 'Y' := by
  unfold Char.toLower at h
  by_cases hc : c.toNat ≥ 65 ∧ c.toNat ≤ 90
  · right
    simp only [hc, if_pos] at h
    have h1 : (Char.ofNat (c.toNat + 32)).toNat = ('y' : Char).toNat :=
      congrArg Char.toNat h
    rw [charOfNat_toNat (c.toNat + 32) (by omega)] at h1
    have h2 : c.toNat = 89 := by
      have hy : ('y' : Char).toNat = 121 := by decide
      omega
    apply Char.ext
    apply UInt32.eq_of_val_eq
    apply Fin.ext
    show c.val.val.val = 89
    simpa [UInt32.toNat] using h2
  · left
    simpa only [hc, if_neg, if_false] using h

theorem migrate_cancelled (ns : String → Bool) (confirm : String)
    (localNames : List String) (forks : List ForkRecord) (hne : forks ≠ [])
    (htm : (computeMigrationSet forks localNames).1 ≠ [])
    (hn : pyLower confirm ≠ "y") :
    migrate_repositories ns confirm localNames forks false =
      (.cancelled, [.cancelledMsg]) := by
  simp [migrate_repositories, hne, htm, hn]

theorem pyLower_eq_y_iff (s : String) :
    pyLower s = "y" ↔ s = "y" ∨ s = "Y" := by
  constructor
  · intro h
    have hd : s.data.map Char.toLower = ['y'] := congrArg String.data h
    cases hs : s.data with
    | nil => rw [hs] at hd; cases hd
    | cons c cs =>
      rw [hs] at hd
      simp only [List.map_cons, List.cons.injEq, List.map_eq_nil_iff] at hd
      obtain ⟨hc, hcs⟩ := hd
      have hsc : s = ⟨[c]⟩ := by
        cases s
        simp_all
      rcases char_toLower_eq_y c hc with h1 | h1
      · left
        rw [hsc, h1]
      · right
        rw [hsc, h1]
  · rintro (h | h) <;> subst h <;> decide

/-! ### Claim theorems -/

/-- C1: the URL parser maps `git@github.com:acme/widget.git` to owner
`acme` / name `widget`; maps `https://github.com/acme/widget` (no `.git`)
to owner `acme` / name `widget`; maps `https://gitlab.com/acme/widget.git`
(non-github.com host) to none; in general any URL starting with neither
host literal yields none, and a trailing `.git` suffix is stripped for
both URL shapes. -/
theorem claim_parse_github_url_roundtrip :
    (parse_github_url "git@github.com:acme/widget.git" =
      some ⟨"acme", "widget", "acme/widget"⟩) ∧
    (parse_github_url "https://github.com/acme/widget" =
      some ⟨"acme", "widget", "acme/widget"⟩) ∧
    (parse_github_url "https://gitlab.com/acme/widget.git" = none) ∧
    (∀ url : String, startsWithChars sshLit url.data = false →
      startsWithChars httpsLit url.data = false →
      parse_github_url url = none) ∧
    (∀ o r : List Char, o ≠ [] → '/' ∉ o → r ≠ [] → '\n' ∉ r →
      parse_github_url ⟨sshLit ++ (o ++ '/' :: (r ++ ['.', 'g', 'i', 't']))⟩ =
          some ⟨⟨o⟩, ⟨r⟩, ⟨o ++ '/' :: r⟩⟩ ∧
      parse_github_url ⟨httpsLit ++ (o ++ '/' :: (r ++ ['.', 'g', 'i', 't']))⟩ =
          some ⟨⟨o⟩, ⟨r⟩, ⟨o ++ '/' :: r⟩⟩) := by
  refine ⟨by decide, by decide, by decide, parse_none_of_no_host, ?_⟩
  intro o r ho hos hr hrn
  exact ⟨parse_strip_ssh o r ho hos hr hrn, parse_strip_https o r ho hos hr hrn⟩

/-- Closed instances of the universally quantified parts of
`claim_parse_github_url_roundtrip`: a non-matching host yields none, and a
`.git` suffix is stripped for a concrete owner and name. -/
theorem claim_parse_github_url_roundtrip_witness :
    parse_github_url "ssh://example.org/x/y" = none ∧
    parse_github_url ⟨sshLit ++ (['a'] ++ '/' :: (['b'] ++ ['.', 'g', 'i', 't']))⟩ =
      some ⟨⟨['a']⟩, ⟨['b']⟩, ⟨['a'] ++ '/' :: ['b']⟩⟩ :=
  ⟨claim_parse_github_url_roundtrip.2.2.2.1 "ssh://example.org/x/y"
      (by decide) (by decide),
   (claim_parse_github_url_roundtrip.2.2.2.2 ['a'] ['b']
      (by decide) (by decide) (by decide) (by decide)).1⟩

/-- C2: the migration-set computation partitions the fork listing by
membership of the identity in the local key set — `toMigrate` is exactly
the sublist (in listing order) of records whose `nameWithOwner` is not a
local key, `skipped` exactly the names of the rest — and on forks
`{A, B, C}` with local identities `{B}` it yields `toMigrate = [A, C]`,
`skipped = [B]`.  The function is pure (it is a plain function of its two
arguments; the source performs no I/O in this loop). -/
theorem claim_computeMigrationSet_spec :
    (∀ (forks : List ForkRecord) (localNames : List String),
      computeMigrationSet forks localNames =
        (forks.filter fun r => !(localNames.contains r.nameWithOwner),
         (forks.filter fun r => localNames.contains r.nameWithOwner).map
           fun r => r.nameWithOwner)) ∧
    (computeMigrationSet
        [⟨"own/A", some "up/A"⟩, ⟨"own/B", some "up/B"⟩, ⟨"own/C", some "up/C"⟩]
        ["own/B"] =
      ([⟨"own/A", some "up/A"⟩, ⟨"own/C", some "up/C"⟩], ["own/B"])) := by
  constructor
  · intro forks localNames
    induction forks with
    | nil => rfl
    | cons repo rest ih =>
      by_cases h : repo.nameWithOwner ∈ localNames <;>
        simp [computeMigrationSet, ih, List.filter_cons, h]
  · decide

/-- C9 (implicit): the parser accepts github.com URLs with more than two
path segments, extracting a repo name that contains `'/'` — e.g.
`https://github.com/a/b/c` and `git@github.com:a/b/c` both give owner
`a` and repo `b/c` — while the owner group can never contain `'/'`. -/
theorem claim_multisegment_repo_names :
    (parse_github_url "https://github.com/a/b/c" = some ⟨"a", "b/c", "a/b/c"⟩) ∧
    (parse_github_url "git@github.com:a/b/c" = some ⟨"a", "b/c", "a/b/c"⟩) ∧
    (∀ (url : String) (info : RepoInfo),
      parse_github_url url = some info → '/' ∉ info.owner.data) :=
  ⟨by decide, by decide, parse_some_owner⟩

/-- Closed instance of the universally quantified part of
`claim_multisegment_repo_names`: the owner extracted from a concrete URL
contains no `'/'`. -/
theorem claim_multisegment_repo_names_witness :
    '/' ∉ ("acme" : String).data :=
  claim_multisegment_repo_names.2.2 "https://github.com/acme/widget"
    ⟨"acme", "widget", "acme/widget"⟩ (by decide)

/-- C3: in a confirmed non-dry run, the create-fork network invocations
are exactly the parent identities of the `toMigrate` candidates that have
one, in listing order — the call is made on the parent's
`nameWithOwner` (the original upstream), never on the candidate fork's
own identity. -/
theorem claim_fork_uses_parent_identity (ns : String → Bool) (confirm : String)
    (localNames : List String) (forks : List ForkRecord)
    (hne : forks ≠ []) (hy : pyLower confirm = "y") :
    forkCallTargets (migrate_repositories ns confirm localNames forks false).2 =
      ((computeMigrationSet forks localNames).1).filterMap ForkRecord.parent := by
  by_cases htm : (computeMigrationSet forks localNames).1 = []
  · rw [migrate_nothingToMigrate ns confirm localNames forks false hne htm, htm]
    rfl
  · rw [migrate_run ns confirm localNames forks false hne htm (Or.inr hy)]
    exact migrateLoop_forkCallTargets_false ns _

/-- Closed instance of `claim_fork_uses_parent_identity`: a fork record
`alice/widget` with parent `upstream/widget` produces a create-fork call
on `upstream/widget`, not on `alice/widget`. -/
theorem claim_fork_uses_parent_identity_witness :
    forkCallTargets (migrate_repositories (fun _ => true) "y" []
        [⟨"alice/widget", some "upstream/widget"⟩] false).2 =
      ["upstream/widget"] := by
  rw [claim_fork_uses_parent_identity (fun _ => true) "y" []
    [⟨"alice/widget", some "upstream/widget"⟩] (by decide) (by decide)]
  decide

/-- C4 counterexample: with `dryRun = true` and a single `toMigrate`
candidate that lacks parent metadata, the run reports `successful = 0`
while `toMigrate` has length `1`, and no synthetic success is reported
for the candidate — refuting "reports every toMigrate candidate as a
synthetic success, with the final successful count equal to the length
of toMigrate". -/
theorem claim_dry_run_counterexample :
    (migrate_repositories (fun _ => true) "" [] [⟨"src/orphan", none⟩] true).1 =
        .completed 0 0 ∧
    ((computeMigrationSet [⟨"src/orphan", none⟩] []).1).length = 1 ∧
    dryRunTargets
      (migrate_repositories (fun _ => true) "" [] [⟨"src/orphan", none⟩] true).2 =
        [] := by
  decide

/-- C4 (amended): with `dryRun = true` no create-fork network action
occurs; every `toMigrate` candidate that carries a parent identity is
reported as a synthetic success (in listing order), and the final
successful count equals the number of `toMigrate` candidates with a
parent identity, with zero failures (candidates without parent metadata
are skipped with a no-parent diagnostic instead). -/
theorem claim_dry_run_amended (ns : String → Bool) (confirm : String)
    (localNames : List String) (forks : List ForkRecord) :
    forkCallTargets (migrate_repositories ns confirm localNames forks true).2 = [] ∧
    dryRunTargets (migrate_repositories ns confirm localNames forks true).2 =
      ((computeMigrationSet forks localNames).1).filterMap ForkRecord.parent ∧
    ((computeMigrationSet forks localNames).1 ≠ [] →
      (migrate_repositories ns confirm localNames forks true).1 =
        .completed (((computeMigrationSet forks localNames).1).countP
          fun r => r.parent.isSome) 0) := by
  by_cases hne : forks = []
  · subst hne
    exact ⟨rfl, rfl, fun h => absurd rfl h⟩
  · by_cases htm : (computeMigrationSet forks localNames).1 = []
    · rw [migrate_nothingToMigrate ns confirm localNames forks true hne htm]
      exact ⟨rfl, by rw [htm]; rfl, fun h => absurd htm h⟩
    · rw [migrate_run ns confirm localNames forks true hne htm (Or.inl rfl)]
      refine ⟨migrateLoop_forkCallTargets_true ns _,
        migrateLoop_dryRunTargets_true ns _, fun _ => ?_⟩
      rw [show ((MigrateOutcome.completed
          (migrateLoop ns true (computeMigrationSet forks localNames).1).1
          (migrateLoop ns true (computeMigrationSet forks localNames).1).2.1,
          (migrateLoop ns true (computeMigrationSet forks localNames).1).2.2) :
          MigrateOutcome × List Event).1 = .completed
          (migrateLoop ns true (computeMigrationSet forks localNames).1).1
          (migrateLoop ns true (computeMigrationSet forks localNames).1).2.1 from rfl,
        (migrateLoop_true_counts ns _).1, (migrateLoop_true_counts ns _).2]

/-- Closed instance of `claim_dry_run_amended`: a dry run over one
parent-carrying candidate completes with one synthetic success and no
network call. -/
theorem claim_dry_run_amended_witness :
    (migrate_repositories (fun _ => true) "" [] [⟨"a/r", some "u/r"⟩] true).1 =
      .completed 1 0 := by
  rw [(claim_dry_run_amended (fun _ => true) "" [] [⟨"a/r", some "u/r"⟩]).2.2
    (by decide)]
  decide

/-- C5: with `dryRun = false` and a non-affirmative confirmation answer,
the migration aborts with the cancelled outcome, emitting only the
cancellation message — no create-fork action occurs and nothing is
tallied as successful or failed. -/
theorem claim_cancellation (ns : String → Bool) (confirm : String)
    (localNames : List String) (forks : List ForkRecord) (hne : forks ≠ [])
    (htm : (computeMigrationSet forks localNames).1 ≠ [])
    (hn : pyLower confirm ≠ "y") :
    migrate_repositories ns confirm localNames forks false =
      (.cancelled, [.cancelledMsg]) ∧
    forkCallTargets (migrate_repositories ns confirm localNames forks false).2 =
      [] := by
  have h1 := migrate_cancelled ns confirm localNames forks hne htm hn
  exact ⟨h1, by rw [h1]; rfl⟩

/-- Closed instance of `claim_cancellation`: answering `n` cancels. -/
theorem claim_cancellation_witness :
    migrate_repositories (fun _ => true) "n" [] [⟨"a/s", some "u/s"⟩] false =
      (.cancelled, [.cancelledMsg]) :=
  (claim_cancellation (fun _ => true) "n" [] [⟨"a/s", some "u/s"⟩]
    (by decide) (by decide) (by decide)).1

/-- C6: in a run that reaches the replay loop, every `toMigrate` record
without parent metadata receives the no-parent diagnostic (in listing
order), is excluded from create-fork attempts (the non-dry-run fork
targets are exactly the parents of the other candidates), and is counted
in neither the successful nor the failed tally: `successful + failed`
equals the number of parent-carrying candidates. -/
theorem claim_no_parent_handling (ns : String → Bool) (confirm : String)
    (localNames : List String) (forks : List ForkRecord) (dr : Bool)
    (hgate : dr = true ∨ pyLower confirm = "y") :
    noParentNames (migrate_repositories ns confirm localNames forks dr).2 =
      (((computeMigrationSet forks localNames).1).filter
        fun r => r.parent = none).map ForkRecord.nameWithOwner ∧
    (dr = false →
      forkCallTargets (migrate_repositories ns confirm localNames forks dr).2 =
        ((computeMigrationSet forks localNames).1).filterMap ForkRecord.parent) ∧
    (∀ s f, (migrate_repositories ns confirm localNames forks dr).1 =
        .completed s f →
      s + f = ((computeMigrationSet forks localNames).1).countP
        fun r => r.parent.isSome) := by
  by_cases hne : forks = []
  · subst hne
    exact ⟨rfl, fun _ => rfl, fun s f h => by cases h⟩
  · by_cases htm : (computeMigrationSet forks localNames).1 = []
    · rw [migrate_nothingToMigrate ns confirm localNames forks dr hne htm]
      exact ⟨by rw [htm]; rfl, fun _ => by rw [htm]; rfl, fun s f h => by cases h⟩
    · rw [migrate_run ns confirm localNames forks dr hne htm hgate]
      refine ⟨migrateLoop_noParentNames ns dr _, fun hdr => ?_, fun s f h => ?_⟩
      · subst hdr
        exact migrateLoop_forkCallTargets_false ns _
      · have hs : (migrateLoop ns dr (computeMigrationSet forks localNames).1).1 = s :=
          congrArg (fun o => match o with
            | MigrateOutcome.completed a _ => a
            | _ => 0) h
        have hf :
            (migrateLoop ns dr (computeMigrationSet forks localNames).1).2.1 = f :=
          congrArg (fun o => match o with
            | MigrateOutcome.completed _ b => b
            | _ => 0) h
        rw [← hs, ← hf]
        exact migrateLoop_counts_sum ns dr _

/-- Closed instance of `claim_no_parent_handling`: a parentless record is
diagnosed and the tally counts only the parent-carrying candidate. -/
theorem claim_no_parent_handling_witness :
    noParentNames (migrate_repositories (fun _ => true) "y" []
      [⟨"a/orphan", none⟩, ⟨"a/t", some "u/t"⟩] false).2 = ["a/orphan"] := by
  rw [(claim_no_parent_handling (fun _ => true) "y" []
    [⟨"a/orphan", none⟩, ⟨"a/t", some "u/t"⟩] false (Or.inr (by decide))).1]
  decide

/-- C10 (implicit): in a non-dry run that reaches the confirmation
prompt, the migration is cancelled exactly when the answer is not `y` or
`Y` — only the single letter `y`, case-insensitively, is affirmative;
in particular `yes` cancels. -/
theorem claim_confirmation_exact_y (ns : String → Bool) (localNames : List String)
    (forks : List ForkRecord) (confirm : String) (hne : forks ≠ [])
    (htm : (computeMigrationSet forks localNames).1 ≠ []) :
    (migrate_repositories ns confirm localNames forks false).1 = .cancelled ↔
      ¬(confirm = "y" ∨ confirm = "Y") := by
  by_cases hy : pyLower confirm = "y"
  · have hd := (pyLower_eq_y_iff confirm).mp hy
    rw [migrate_run ns confirm localNames forks false hne htm (Or.inr hy)]
    constructor
    · intro h
      simp at h
    · intro h
      exact absurd hd h
  · rw [migrate_cancelled ns confirm localNames forks hne htm hy]
    constructor
    · intro _ hd
      exact hy ((pyLower_eq_y_iff confirm).mpr hd)
    · intro _
      rfl

/-- Closed instance of `claim_confirmation_exact_y`: answering `yes`
cancels the migration. -/
theorem claim_confirmation_exact_y_witness :
    (migrate_repositories (fun _ => true) "yes" [] [⟨"a/u", some "u/u"⟩]
      false).1 = .cancelled :=
  (claim_confirmation_exact_y (fun _ => true) [] [⟨"a/u", some "u/u"⟩] "yes"
    (by decide) (by decide)).mpr (by decide)

/-- Example tree for the leaf-repository invariant: the scan base holds
`b`, a git repository (remote `git@github.com:acme/widget.git`) that
physically contains a nested repository at `b/vendor/c` (remote
`git@github.com:acme/nested.git`). -/
def nestedRepoTree : FSList :=
  .cons (.dir "b" (
    .cons (.dir ".git" .nil) (
    .cons (.dir "vendor" (
      .cons (.dir "c" (.cons (.dir ".git" .nil) .nil)) .nil)) .nil))) .nil

/-- Remote-URL oracle for `nestedRepoTree`. -/
def nestedRepoOracle : List String → Option String := fun p =>
  if p = ["b"] then some "git@github.com:acme/widget.git"
  else if p = ["b", "vendor", "c"] then some "git@github.com:acme/nested.git"
  else none

/-- C7: once a directory is identified as a repository root, the walk
does not descend into it — a repository entry the walk reaches
contributes exactly its own path to the visit list, and a repository
base directory makes the whole scan visit only the base.  On the
concrete example of a repository `b` containing a nested repository
`b/vendor/c`, only `b`'s identity (`acme/widget`) is in the resulting
mapping, the visit list is exactly `[base, b]` (the nested root is never
reached), and no path — in particular no repository root — is visited
twice. -/
theorem claim_scan_leaf_invariant :
    (∀ (oracle : List String → Option String) (path : List String)
       (n : String) (cs : FSList), is_git_repository cs = true →
      (visitEntry oracle path (.dir n cs)).1 =
        if walkDescends (.dir n cs) then [path ++ [n]] else []) ∧
    (∀ (oracle : List String → Option String) (base : FSList),
      is_git_repository base = true →
      (scan_directory oracle base).1 = [[]]) ∧
    (scan_directory nestedRepoOracle nestedRepoTree).2.map Prod.fst =
      ["acme/widget"] ∧
    (scan_directory nestedRepoOracle nestedRepoTree).1 = [[], ["b"]] ∧
    (scan_directory nestedRepoOracle nestedRepoTree).1.Nodup := by
  refine ⟨?_, ?_, by decide, by decide, by decide⟩
  · intro oracle path n cs h
    by_cases hd : walkDescends (.dir n cs) <;> simp [visitEntry, h, hd]
  · intro oracle base h
    simp [scan_directory, h]

/-- Closed instances of the universally quantified parts of
`claim_scan_leaf_invariant`: a concrete repository entry contributes only
its own path, and a repository base is the only visited path of its
scan. -/
theorem claim_scan_leaf_invariant_witness :
    (visitEntry nestedRepoOracle [] (.dir "b" (.cons (.dir ".git" .nil) .nil))).1 =
      (if walkDescends (.dir "b" (.cons (.dir ".git" .nil) .nil))
        then [[] ++ ["b"]] else []) ∧
    (scan_directory nestedRepoOracle (.cons (.dir ".git" .nil) .nil)).1 = [[]] :=
  ⟨claim_scan_leaf_invariant.1 nestedRepoOracle [] "b"
      (.cons (.dir ".git" .nil) .nil) (by decide),
   claim_scan_leaf_invariant.2.1 nestedRepoOracle
      (.cons (.dir ".git" .nil) .nil) (by decide)⟩

/-- Predicate following the words of claim C8 / spec §4.1: a
version-control metadata DIRECTORY named `.git` exists directly under
the path.  Stated from the specification for comparison with the
source's `is_git_repository`. -/
def specGitDirExists : FSList → Bool
  | .nil => false
  | .cons e rest =>
    (match e with
      | .dir n _ => n == ".git"
      | .file _ => false) || specGitDirExists rest

theorem is_git_repository_iff : (children : FSList) →
    (is_git_repository children = true ↔
      ∃ e ∈ children.toList, FSEntry.name e = ".git")
  | .nil => by simp [is_git_repository, FSList.toList]
  | .cons e rest => by
    simp [is_git_repository, FSList.toList, is_git_repository_iff rest]

/-- C8 counterexample: in a directory whose `.git` entry is a plain file
(as in git worktrees and submodule checkouts), `Path('.git').exists()`
is true, so `is_git_repository` answers true even though no `.git`
DIRECTORY exists directly under the path — refuting the claimed "true if
and only if a version-control metadata directory exists" reading. -/
theorem claim_is_git_repository_counterexample :
    is_git_repository (.cons (.file ".git") .nil) = true ∧
    specGitDirExists (.cons (.file ".git") .nil) = false := by
  decide

/-- C8 (amended): `is_git_repository path` returns true iff some entry
named `.git` — directory or plain file — exists directly under the path
(the source tests `(path / '.git').exists()`, which does not distinguish
the two); it is a pure function of the directory's children, with no
side effect beyond that read. -/
theorem claim_is_git_repository_amended :
    ∀ children : FSList, is_git_repository children = true ↔
      ∃ e ∈ children.toList, FSEntry.name e = ".git" :=
  is_git_repository_iff

end MigrateRepos
